import Mathlib

/-!
Verification of the Forbin MCP client's connection/session subsystem.

The Python source is shallowly embedded: network behaviour is supplied by
oracle functions (one response per attempt), side effects are recorded as
event traces, exceptions are `Except` errors, and Python values are
modelled by `PyValue` (real numbers as exact rationals).
-/

namespace Forbin

/-- Python exceptions relevant to the client (all subclasses of `Exception`;
`BaseException`-only classes such as `KeyboardInterrupt` are outside the model). -/
inductive PyExc where
  | connectError
  | timeoutError
  | jsonDecodeError
  | valueError
  | other (name : String)
deriving DecidableEq

/-- A tool descriptor as returned by the MCP server (only the identity matters here). -/
structure Tool where
  name : String
deriving DecidableEq

/-- Model of `MCPSession` (client.py): `clientAttempt` is `some i` when the wrapped
transport client was opened by connection attempt `i`, `none` when `self.client` is falsy. -/
structure MCPSession where
  clientAttempt : Option ℕ
deriving DecidableEq

/-- Python values produced by parameter coercion (`tools.py`).
Python floats are modelled as exact rationals. -/
inductive PyValue where
  | none
  | bool (b : Bool)
  | int (n : ℤ)
  | float (q : ℚ)
  | str (s : String)
  | list (xs : List PyValue)
  | dict (kvs : List (String × PyValue))

/-! ### Python string primitives used by `parse_parameter_value` -/

/-- ASCII whitespace recognised by Python's `str.strip()` (non-ASCII whitespace omitted). -/
def isPySpace (c : Char) : Bool :=
  c == ' ' || c == '\t' || c == '\n' || c == '\r' || c == Char.ofNat 11 || c == Char.ofNat 12

/-- `str.strip()` on the character list: drop whitespace from both ends. -/
def pyStripList (l : List Char) : List Char :=
  ((l.dropWhile isPySpace).reverse.dropWhile isPySpace).reverse

/-- Model of Python `str.strip()`. -/
def pyStrip (s : String) : String :=
  String.mk (pyStripList s.data)

/-- Model of Python `str.lower()` (per-character, as for ASCII input). -/
def pyLower (s : String) : String :=
  String.mk (s.data.map Char.toLower)

/-! ### Python `int()` and `float()` on strings

Python allows surrounding whitespace, an optional sign, and single
underscores between digits. -/

/-- Trailing part of a digit run: underscores must be followed by a digit. -/
def uDigitsTail : List Char → Bool
  | [] => true
  | '_' :: d :: rest => d.isDigit && uDigitsTail rest
  | '_' :: [] => false
  | d :: rest => d.isDigit && uDigitsTail rest

/-- A valid Python digit run: nonempty, starts with a digit, single underscores only between digits. -/
def uDigitsOk : List Char → Bool
  | [] => false
  | c :: rest => c.isDigit && uDigitsTail (c :: rest) && (c :: rest).getLast? != some '_'

/-- Numeric value of a digit run, ignoring underscores. -/
def uDigitsVal (l : List Char) : ℕ :=
  (l.filter (fun c => c != '_')).foldl (fun a c => a * 10 + (c.toNat - 48)) 0

/-- Number of actual digits in a digit run. -/
def uDigitsCount (l : List Char) : ℕ :=
  (l.filter (fun c => c != '_')).length

/-- Model of Python `int(value_str)`: raises `ValueError` on malformed input. -/
def pyInt (s : String) : Except PyExc ℤ :=
  let l := pyStripList s.data
  let signed : Bool × List Char :=
    match l with
    | '+' :: r => (false, r)
    | '-' :: r => (true, r)
    | _ => (false, l)
  let neg := signed.1
  let l1 := signed.2
  if l1.all (fun c => c.isDigit || c == '_') && uDigitsOk l1 then
    .ok (if neg then -(uDigitsVal l1 : ℤ) else (uDigitsVal l1 : ℤ))
  else .error .valueError

/-- Model of Python `float(value_str)` as an exact rational: optional sign,
integer part and/or fractional part, optional decimal exponent.
IEEE specials (`inf`, `nan`) are outside the rational model and rejected. -/
def pyFloat (s : String) : Except PyExc ℚ :=
  let l := pyStripList s.data
  let signed : Bool × List Char :=
    match l with
    | '+' :: r => (false, r)
    | '-' :: r => (true, r)
    | _ => (false, l)
  let neg := signed.1
  let l1 := signed.2
  let isDC : Char → Bool := fun c => c.isDigit || c == '_'
  let ip := l1.takeWhile isDC
  let l2 := l1.dropWhile isDC
  if ip ≠ [] && ¬ uDigitsOk ip then .error .valueError
  else
    let fracParse : Option (List Char × List Char) :=
      match l2 with
      | '.' :: r =>
        let fp := r.takeWhile isDC
        if fp ≠ [] && ¬ uDigitsOk fp then Option.none
        else some (fp, r.dropWhile isDC)
      | _ => some ([], l2)
    match fracParse with
    | Option.none => .error .valueError
    | some (fp, l3) =>
      if ip = [] && fp = [] then .error .valueError
      else
        let expParse : Option (Bool × List Char × List Char) :=
          match l3 with
          | 'e' :: r | 'E' :: r =>
            let signedE : Bool × List Char :=
              match r with
              | '+' :: r2 => (false, r2)
              | '-' :: r2 => (true, r2)
              | _ => (false, r)
            let ed := signedE.2.takeWhile isDC
            if ed = [] || ¬ uDigitsOk ed then Option.none
            else some (signedE.1, ed, signedE.2.dropWhile isDC)
          | _ => some (false, [], l3)
        match expParse with
        | Option.none => .error .valueError
        | some (eneg, ed, l4) =>
          if l4 ≠ [] then .error .valueError
          else
            let mantNum : ℕ :=
              uDigitsVal ip * 10 ^ uDigitsCount fp + uDigitsVal fp
            let e := uDigitsVal ed
            let num : ℕ := if eneg then mantNum else mantNum * 10 ^ e
            let den : ℕ := if eneg then 10 ^ (uDigitsCount fp + e) else 10 ^ uDigitsCount fp
            .ok (Rat.divInt (if neg then -(num : ℤ) else (num : ℤ)) (den : ℤ))

/-! ### Model of Python `json.loads` (stdlib dependency of `parse_parameter_value`) -/

/-- JSON insignificant whitespace. -/
def isJsonWs (c : Char) : Bool :=
  c == ' ' || c == '\t' || c == '\n' || c == '\r'

/-- Left brace character, written via its code point. -/
def lbrace : Char := Char.ofNat 123

/-- Right brace character, written via its code point. -/
def rbrace : Char := Char.ofNat 125

/-- Hexadecimal digit value. -/
def hexVal (c : Char) : Option ℕ :=
  if '0' ≤ c ∧ c ≤ '9' then some (c.toNat - '0'.toNat)
  else if 'a' ≤ c ∧ c ≤ 'f' then some (c.toNat - 'a'.toNat + 10)
  else if 'A' ≤ c ∧ c ≤ 'F' then some (c.toNat - 'A'.toNat + 10)
  else Option.none

/-- Parse the body of a JSON string after the opening quote; returns the
decoded characters and the remaining input. -/
def jsonStringAux : ℕ → List Char → Option (List Char × List Char)
  | 0, _ => Option.none
  | _, [] => Option.none
  | fuel + 1, c :: rest =>
    if c == '"' then some ([], rest)
    else if c == '\\' then
      match rest with
      | [] => Option.none
      | e :: rest2 =>
        if e == 'u' then
          match rest2 with
          | h1 :: h2 :: h3 :: h4 :: rest3 =>
            match hexVal h1, hexVal h2, hexVal h3, hexVal h4 with
            | some a, some b, some c2, some d =>
              let n := ((a * 16 + b) * 16 + c2) * 16 + d
              match jsonStringAux fuel rest3 with
              | some (cs, r) => some (Char.ofNat n :: cs, r)
              | Option.none => Option.none
            | _, _, _, _ => Option.none
          | _ => Option.none
        else
          let ec : Option Char :=
            if e == '"' then some '"'
            else if e == '\\' then some '\\'
            else if e == '/' then some '/'
            else if e == 'b' then some (Char.ofNat 8)
            else if e == 'f' then some (Char.ofNat 12)
            else if e == 'n' then some '\n'
            else if e == 'r' then some '\r'
            else if e == 't' then some '\t'
            else Option.none
          match ec with
          | Option.none => Option.none
          | some ch =>
            match jsonStringAux fuel rest2 with
            | some (cs, r) => some (ch :: cs, r)
            | Option.none => Option.none
    else if c.toNat < 32 then Option.none
    else
      match jsonStringAux fuel rest with
      | some (cs, r) => some (c :: cs, r)
      | Option.none => Option.none

/-- Numeric value of a plain JSON digit run. -/
def jDigitsVal (ds : List Char) : ℕ :=
  ds.foldl (fun a c => a * 10 + (c.toNat - 48)) 0

/-- Parse a JSON number (strict grammar: no leading zeros, no underscores).
Numbers without fraction or exponent become Python ints, others floats. -/
def jsonNumber (l : List Char) : Option (PyValue × List Char) :=
  let signed : Bool × List Char :=
    match l with
    | '-' :: r => (true, r)
    | _ => (false, l)
  let neg := signed.1
  let l1 := signed.2
  let ip := l1.takeWhile Char.isDigit
  let l2 := l1.dropWhile Char.isDigit
  if ip = [] then Option.none
  else if ip.length > 1 ∧ ip.head? = some '0' then Option.none
  else
    let fracParse : Option (List Char × List Char × Bool) :=
      match l2 with
      | '.' :: r =>
        let fd := r.takeWhile Char.isDigit
        if fd = [] then Option.none else some (fd, r.dropWhile Char.isDigit, true)
      | _ => some ([], l2, false)
    match fracParse with
    | Option.none => Option.none
    | some (fd, l3, hasFrac) =>
      let expParse : Option (Bool × List Char × List Char × Bool) :=
        match l3 with
        | 'e' :: r | 'E' :: r =>
          let signedE : Bool × List Char :=
            match r with
            | '+' :: r2 => (false, r2)
            | '-' :: r2 => (true, r2)
            | _ => (false, r)
          let ed := signedE.2.takeWhile Char.isDigit
          if ed = [] then Option.none
          else some (signedE.1, ed, signedE.2.dropWhile Char.isDigit, true)
        | _ => some (false, [], l3, false)
      match expParse with
      | Option.none => Option.none
      | some (eneg, ed, l4, hasExp) =>
        if ¬ hasFrac ∧ ¬ hasExp then
          some (.int (if neg then -(jDigitsVal ip : ℤ) else (jDigitsVal ip : ℤ)), l2)
        else
          let mantNum : ℕ := jDigitsVal ip * 10 ^ fd.length + jDigitsVal fd
          let e := jDigitsVal ed
          let num : ℕ := if eneg then mantNum else mantNum * 10 ^ e
          let den : ℕ := if eneg then 10 ^ (fd.length + e) else 10 ^ fd.length
          some (.float (Rat.divInt (if neg then -(num : ℤ) else (num : ℤ)) (den : ℤ)), l4)

mutual

/-- Parse one JSON value. -/
def jsonVal : ℕ → List Char → Option (PyValue × List Char)
  | 0, _ => Option.none
  | fuel + 1, input =>
    let l := input.dropWhile isJsonWs
    match l with
    | [] => Option.none
    | c :: rest =>
      if c == '"' then
        match jsonStringAux (rest.length + 1) rest with
        | some (cs, r) => some (.str (String.mk cs), r)
        | Option.none => Option.none
      else if c == lbrace then
        let rest1 := rest.dropWhile isJsonWs
        match rest1 with
        | c2 :: r2 =>
          if c2 == rbrace then some (.dict [], r2)
          else
            match jsonMembers fuel rest1 with
            | some (kvs, r) => some (.dict kvs, r)
            | Option.none => Option.none
        | [] => Option.none
      else if c == '[' then
        let rest1 := rest.dropWhile isJsonWs
        match rest1 with
        | c2 :: r2 =>
          if c2 == ']' then some (.list [], r2)
          else
            match jsonElems fuel rest1 with
            | some (xs, r) => some (.list xs, r)
            | Option.none => Option.none
        | [] => Option.none
      else
        match l with
        | 't' :: 'r' :: 'u' :: 'e' :: r => some (.bool true, r)
        | 'f' :: 'a' :: 'l' :: 's' :: 'e' :: r => some (.bool false, r)
        | 'n' :: 'u' :: 'l' :: 'l' :: r => some (.none, r)
        | _ => jsonNumber l

/-- Parse the members of a JSON object (after the opening brace, nonempty case). -/
def jsonMembers : ℕ → List Char → Option (List (String × PyValue) × List Char)
  | 0, _ => Option.none
  | fuel + 1, input =>
    let l := input.dropWhile isJsonWs
    match l with
    | [] => Option.none
    | c :: rest =>
      if c == '"' then
        match jsonStringAux (rest.length + 1) rest with
        | some (key, r1) =>
          let r2 := r1.dropWhile isJsonWs
          match r2 with
          | ':' :: r3 =>
            match jsonVal fuel r3 with
            | some (v, r4) =>
              let r5 := r4.dropWhile isJsonWs
              match r5 with
              | ',' :: r6 =>
                match jsonMembers fuel r6 with
                | some (kvs, r7) => some ((String.mk key, v) :: kvs, r7)
                | Option.none => Option.none
              | c3 :: r6 =>
                if c3 == rbrace then some ([(String.mk key, v)], r6) else Option.none
              | [] => Option.none
            | Option.none => Option.none
          | _ => Option.none
        | Option.none => Option.none
      else Option.none

/-- Parse the elements of a JSON array (after the opening bracket, nonempty case). -/
def jsonElems : ℕ → List Char → Option (List PyValue × List Char)
  | 0, _ => Option.none
  | fuel + 1, input =>
    match jsonVal fuel input with
    | some (v, r) =>
      let r1 := r.dropWhile isJsonWs
      match r1 with
      | ',' :: r2 =>
        match jsonElems fuel r2 with
        | some (xs, r3) => some (v :: xs, r3)
        | Option.none => Option.none
      | c :: r2 => if c == ']' then some ([v], r2) else Option.none
      | [] => Option.none
    | Option.none => Option.none

end

/-- Model of Python `json.loads`: parse one document, require full consumption. -/
def jsonLoads (s : String) : Except PyExc PyValue :=
  match jsonVal (s.length + 1) s.data with
  | some (v, rest) =>
    if rest.dropWhile isJsonWs = [] then .ok v else .error .jsonDecodeError
  | Option.none => .error .jsonDecodeError

/-- Embedding of `parse_parameter_value` (tools.py lines 33-57): coerce a user
string to the declared parameter type; blank input means "absent" (Python `None`);
`int`/`float`/`json.loads` errors are re-raised to the caller. -/
def parse_parameter_value (value_str : String) (param_type : String) :
    Except PyExc PyValue :=
  if pyStrip value_str = "" then .ok .none
  else if param_type = "boolean" then
    .ok (.bool (["true", "t", "yes", "y", "1"].contains (pyLower value_str)))
  else if param_type = "integer" then
    (pyInt value_str).map PyValue.int
  else if param_type = "number" then
    (pyFloat value_str).map PyValue.float
  else if param_type = "object" ∨ param_type = "array" then
    jsonLoads value_str
  else .ok (.str value_str)

/-! ### Session cleanup (client.py `MCPSession.cleanup`) -/

/-- Embedding of `MCPSession.cleanup` (client.py lines 45-52). The behaviour of the
underlying `client.__aexit__` is an oracle `aexit` indexed by how many times the
transport has been closed before (`callCount`); any exception it raises is swallowed
by the `except Exception: pass` in the source. Returns the outcome of `cleanup`
itself together with the updated close count. -/
def MCPSession.cleanup (s : MCPSession) (aexit : ℕ → Except PyExc Unit)
    (callCount : ℕ) : Except PyExc Unit × ℕ :=
  match s.clientAttempt with
  | Option.none => (.ok (), callCount)
  | some _ =>
    match aexit callCount with
    | .ok _ => (.ok (), callCount + 1)
    | .error _ => (.ok (), callCount + 1)

/-! ### Health probe (client.py `wake_up_server`) -/

/-- What one `client.get(health_url)` yields: an HTTP response or a raised exception. -/
inductive AttemptResp where
  | status (code : ℕ)
  | exc (e : PyExc)
deriving DecidableEq

/-- Did the attempt yield HTTP 200? (the only success condition in the source). -/
def is200 : AttemptResp → Bool
  | .status code => code == 200
  | .exc _ => false

/-- Did the attempt raise an exception (timeout, connection error, or other)? -/
def isExcResp : AttemptResp → Bool
  | .status _ => false
  | .exc _ => true

/-- Observable steps of the health probe: one GET per attempt, and the
inter-attempt wait. -/
inductive WakeEvent where
  | get
  | sleep (secs : ℚ)
deriving DecidableEq

/-- Outcome of one probe attempt after the source's exception handlers:
`except (httpx.ConnectError, httpx.TimeoutException)` and `except Exception`
turn every modelled exception into a failed attempt. -/
def wakeAttemptOutcome : AttemptResp → Except PyExc Bool
  | .status code => .ok (code == 200)
  | .exc .connectError => .ok false
  | .exc .timeoutError => .ok false
  | .exc _ => .ok false

/-- The retry loop of `wake_up_server` (client.py lines 73-107): `attempt` is the
1-based attempt number, the second argument the number of attempts remaining.
Returns true immediately on HTTP 200; sleeps `wait` between failed attempts
but not after the last. -/
def wakeLoop (resp : ℕ → AttemptResp) (wait : ℚ) : ℕ → ℕ → Except PyExc (Bool × List WakeEvent)
  | _, 0 => .ok (false, [])
  | attempt, Nat.succ r =>
    match wakeAttemptOutcome (resp attempt) with
    | .error e => .error e
    | .ok true => .ok (true, [.get])
    | .ok false =>
      if r = 0 then .ok (false, [.get])
      else
        match wakeLoop resp wait (attempt + 1) r with
        | .error e => .error e
        | .ok (b, evs) => .ok (b, .get :: .sleep wait :: evs)

/-- Embedding of `wake_up_server` (client.py lines 55-110). The network is the
oracle `resp`, giving the result of the GET issued by each attempt. -/
def wake_up_server (health_url : String) (resp : ℕ → AttemptResp)
    (max_attempts : ℕ) (wait_seconds : ℚ) : Except PyExc (Bool × List WakeEvent) :=
  wakeLoop resp wait_seconds 1 max_attempts

/-- The trace of a probe run with `n` GET attempts: a wait between consecutive
attempts and none after the last. -/
def wakeTrace (wait : ℚ) : ℕ → List WakeEvent
  | 0 => []
  | 1 => [.get]
  | Nat.succ (Nat.succ n) => .get :: .sleep wait :: wakeTrace wait (Nat.succ n)

/-- Number of GET requests recorded in a probe trace. -/
def countGets (evs : List WakeEvent) : ℕ :=
  evs.countP (fun e => match e with | .get => true | _ => false)

/-! ### Connect-and-list (client.py `connect_and_list_tools`) -/

/-- How one connection attempt behaves, as an oracle per attempt number:
the `Client(...)` constructor may raise, the handshake (`__aenter__`) may raise,
the tool listing may raise (e.g. time out), or everything succeeds with a tool list. -/
inductive AttemptBehavior where
  | ctorFail (e : PyExc)
  | handshakeFail (e : PyExc)
  | listFail (e : PyExc)
  | ok (tools : List Tool)

/-- Observable steps of `connect_and_list_tools`, tagged with the 1-based attempt number:
start of an attempt, transport client construction, completed handshake, tool-listing
call, release of that attempt's transport (`client.__aexit__`), inter-attempt wait. -/
inductive ConnEvent where
  | attemptStart (i : ℕ)
  | openClient (i : ℕ)
  | handshakeOk (i : ℕ)
  | listCall (i : ℕ)
  | release (i : ℕ)
  | sleep (secs : ℚ)
deriving DecidableEq

/-- The retry loop of `connect_and_list_tools` (client.py lines 215-282): `i` is the
1-based attempt number, the second argument the number of attempts remaining.
On failure the partially opened transport of that attempt (if any) is released and,
unless it was the last attempt, the whole attempt is retried after a wait. -/
def connectLoop (behav : ℕ → AttemptBehavior) (wait : ℚ) :
    ℕ → ℕ → (Option MCPSession × List Tool) × List ConnEvent
  | _, 0 => ((Option.none, []), [])
  | i, Nat.succ r =>
    match behav i with
    | .ok tools =>
      ((some ⟨some i⟩, tools),
        [.attemptStart i, .openClient i, .handshakeOk i, .listCall i])
    | .ctorFail _ =>
      if r = 0 then ((Option.none, []), [.attemptStart i])
      else
        let rest := connectLoop behav wait (i + 1) r
        (rest.1, .attemptStart i :: .sleep wait :: rest.2)
    | .handshakeFail _ =>
      if r = 0 then ((Option.none, []), [.attemptStart i, .openClient i, .release i])
      else
        let rest := connectLoop behav wait (i + 1) r
        (rest.1, .attemptStart i :: .openClient i :: .release i :: .sleep wait :: rest.2)
    | .listFail _ =>
      if r = 0 then
        ((Option.none, []),
          [.attemptStart i, .openClient i, .handshakeOk i, .listCall i, .release i])
      else
        let rest := connectLoop behav wait (i + 1) r
        (rest.1,
          .attemptStart i :: .openClient i :: .handshakeOk i :: .listCall i ::
            .release i :: .sleep wait :: rest.2)

/-- Embedding of `connect_and_list_tools` (client.py lines 192-284): connect and
list tools in a single retry loop; `(None, [])` after exhausting all attempts. -/
def connect_and_list_tools (behav : ℕ → AttemptBehavior)
    (max_attempts : ℕ) (wait_seconds : ℚ) :
    (Option MCPSession × List Tool) × List ConnEvent :=
  connectLoop behav wait_seconds 1 max_attempts

/-! ### Reconnect coordinator (cli.py `reconnect`) -/

/-- Observable steps of `reconnect`: cleanup of the previous session, the health
probe's steps, the fixed settle delay after a successful probe, and the
connect-and-list steps. -/
inductive RecEvent where
  | cleanupPrev
  | wakeGet
  | wakeSleep (secs : ℚ)
  | settle (secs : ℚ)
  | conn (e : ConnEvent)
deriving DecidableEq

/-- Lift a probe step into the reconnect trace. -/
def wakeToRec : WakeEvent → RecEvent
  | .get => .wakeGet
  | .sleep q => .wakeSleep q

/-- Is this reconnect step part of `connect_and_list_tools` (the SessionFactory)? -/
def isConnEvent : RecEvent → Bool
  | .conn _ => true
  | _ => false

/-- Embedding of `reconnect` (cli.py lines 117-171). A previous session is cleaned
up first (errors swallowed; `MCPSession.cleanup` never raises). If a health URL is
configured the probe runs with 6 attempts and 5s waits; on probe failure
`(None, None)` is returned without touching `connect_and_list_tools`. Otherwise,
after a 5s settle delay, `connect_and_list_tools` runs with 3 attempts and 5s
waits; its failure also yields `(None, None)`. -/
def reconnect (health_url : Option String) (wakeResp : ℕ → AttemptResp)
    (behav : ℕ → AttemptBehavior) (old_session : Option MCPSession) :
    Except PyExc ((Option MCPSession × Option (List Tool)) × List RecEvent) :=
  let cleanupEvs : List RecEvent :=
    match old_session with
    | some _ => [.cleanupPrev]
    | Option.none => []
  match health_url with
  | Option.none =>
    let c := connect_and_list_tools behav 3 5
    let evs := cleanupEvs ++ c.2.map RecEvent.conn
    match c.1 with
    | (some s, tools) => .ok ((some s, some tools), evs)
    | (Option.none, _) => .ok ((Option.none, Option.none), evs)
  | some url =>
    match wake_up_server url wakeResp 6 5 with
    | .error e => .error e
    | .ok (isAwake, wevs) =>
      let evs0 := cleanupEvs ++ wevs.map wakeToRec
      if isAwake then
        let c := connect_and_list_tools behav 3 5
        let evs := evs0 ++ RecEvent.settle 5 :: c.2.map RecEvent.conn
        match c.1 with
        | (some s, tools) => .ok ((some s, some tools), evs)
        | (Option.none, _) => .ok ((Option.none, Option.none), evs)
      else .ok ((Option.none, Option.none), evs0)

/-! ### Cancellable tool invocation (tools.py `call_tool`) -/

/-- The two racing tasks created by `call_tool`. -/
inductive TaskId where
  | toolTask
  | escTask
deriving DecidableEq

/-- Observable steps of `call_tool`: task creation, cancellation of the race's
loser, and the await that confirms the loser reached a terminal state. -/
inductive InvEvent where
  | createTask (t : TaskId)
  | cancel (t : TaskId)
  | awaited (t : TaskId)
deriving DecidableEq

/-- The result object of the remote tool call (shape irrelevant to the claims). -/
structure CallToolResult where
  isError : Bool
  content : List String
deriving DecidableEq

/-- How the remote invocation behaves: a result, or a raised exception. -/
inductive ToolOutcome where
  | result (r : CallToolResult)
  | exc (e : PyExc)
deriving DecidableEq

/-- Which task settles first in the `asyncio.wait(..., FIRST_COMPLETED)` race. -/
inductive RaceWinner where
  | toolFirst
  | escFirst
deriving DecidableEq

/-- The classified outcome of one `call_tool` run: cancelled by the user,
completed with the invocation's result, or failed with the captured exception. -/
inductive InvokeOutcome where
  | cancelled
  | completed (r : CallToolResult)
  | failed (e : PyExc)
deriving DecidableEq

/-- Embedding of `call_tool` (tools.py lines 150-250). The race outcome is the
oracle `winner`; `outcome` is how the remote call behaves. The pending loser is
cancelled and awaited (its `CancelledError` absorbed) before anything is returned;
an exception re-raised by `tool_task.result()` is captured by the outer
`except Exception` and reported as a failed outcome. -/
def call_tool (mcp_session : MCPSession) (tool : Tool)
    (params : List (String × PyValue)) (winner : RaceWinner)
    (outcome : ToolOutcome) : Except PyExc (InvokeOutcome × List InvEvent) :=
  let created : List InvEvent := [.createTask .toolTask, .createTask .escTask]
  match winner with
  | .escFirst =>
    .ok (.cancelled, created ++ [.cancel .toolTask, .awaited .toolTask])
  | .toolFirst =>
    let evs := created ++ [.cancel .escTask, .awaited .escTask]
    match outcome with
    | .result r => .ok (.completed r, evs)
    | .exc e => .ok (.failed e, evs)

/-! ## Helper lemmas -/

theorem isPySpace_toLower {c : Char} (h : isPySpace c = true) : c.toLower = c := by
  simp only [isPySpace, Bool.or_eq_true, beq_iff_eq] at h
  rcases h with ((((rfl | rfl) | rfl) | rfl) | rfl) | rfl <;> decide

theorem pyStrip_empty_all_space {s : String} (h : pyStrip s = "") :
    ∀ c ∈ s.data, isPySpace c = true := by
  have h0 : pyStripList s.data = [] := congrArg String.data h
  unfold pyStripList at h0
  rw [List.reverse_eq_nil_iff, List.dropWhile_eq_nil_iff] at h0
  have hdrop : ∀ c ∈ s.data.dropWhile isPySpace, isPySpace c = true := by
    intro c hc
    exact h0 c (List.mem_reverse.mpr hc)
  intro c hc
  rw [← List.takeWhile_append_dropWhile isPySpace s.data, List.mem_append] at hc
  rcases hc with hc | hc
  · exact List.mem_takeWhile_imp hc
  · exact hdrop c hc

theorem pyLower_all_space {s : String} (h : ∀ c ∈ s.data, isPySpace c = true) :
    pyLower s = s := by
  unfold pyLower
  have hmap : s.data.map Char.toLower = s.data.map id :=
    List.map_congr_left (fun c hc => isPySpace_toLower (h c hc))
  rw [hmap, List.map_id]

theorem pyStrip_ne_empty_of_pyLower {s t : String} (h : pyLower s = t)
    (ht : ¬ (∀ c ∈ t.data, isPySpace c = true)) : pyStrip s ≠ "" := by
  intro hb
  have hs := pyStrip_empty_all_space hb
  have hlow : pyLower s = s := pyLower_all_space hs
  rw [hlow] at h
  exact ht (h ▸ hs)

/-! ## C4 -/

/-- C4: `Session.cleanup` never raises: called once or called twice, on an open
session (`clientAttempt` set, any `__aexit__` behaviour) or on an already-closed
one, it completes normally, swallowing any error from closing the transport. -/
theorem cleanup_never_raises (s : MCPSession) (aexit : ℕ → Except PyExc Unit) (n : ℕ) :
    (s.cleanup aexit n).1 = .ok () ∧
    (s.cleanup aexit (s.cleanup aexit n).2).1 = .ok () := by
  rcases s with ⟨_ | a⟩
  · exact ⟨rfl, rfl⟩
  · constructor
    · rcases h1 : aexit n with e | u <;> simp [MCPSession.cleanup, h1]
    · rcases h1 : aexit n with e | u <;>
      · rcases h2 : aexit (n + 1) with e2 | u2 <;>
          simp [MCPSession.cleanup, h1, h2]

/-! ## C5 and C6 -/

/-- C5: in `call_tool`, if the invocation settles first its result (or captured
exception) is the outcome and the cancellation watcher is cancelled and awaited;
if cancellation is signalled first the outcome is the distinct cancelled outcome
and the invocation task is cancelled and awaited; in both cases the loser is
cancelled and awaited before `call_tool` returns, so no task outlives the call. -/
theorem call_tool_race (s : MCPSession) (tool : Tool)
    (params : List (String × PyValue)) (outcome : ToolOutcome) :
    (∀ r, outcome = .result r →
      call_tool s tool params .toolFirst outcome =
        .ok (.completed r,
          [.createTask .toolTask, .createTask .escTask, .cancel .escTask, .awaited .escTask])) ∧
    (∀ e, outcome = .exc e →
      call_tool s tool params .toolFirst outcome =
        .ok (.failed e,
          [.createTask .toolTask, .createTask .escTask, .cancel .escTask, .awaited .escTask])) ∧
    (call_tool s tool params .escFirst outcome =
      .ok (.cancelled,
        [.createTask .toolTask, .createTask .escTask, .cancel .toolTask, .awaited .toolTask])) ∧
    (InvEvent.cancel .escTask ∈
        [InvEvent.createTask .toolTask, .createTask .escTask, .cancel .escTask, .awaited .escTask] ∧
      InvEvent.awaited .escTask ∈
        [InvEvent.createTask .toolTask, .createTask .escTask, .cancel .escTask, .awaited .escTask]) ∧
    (InvEvent.cancel .toolTask ∈
        [InvEvent.createTask .toolTask, .createTask .escTask, .cancel .toolTask, .awaited .toolTask] ∧
      InvEvent.awaited .toolTask ∈
        [InvEvent.createTask .toolTask, .createTask .escTask, .cancel .toolTask, .awaited .toolTask]) := by
  refine ⟨?_, ?_, rfl, by decide, by decide⟩
  · rintro r rfl; rfl
  · rintro e rfl; rfl

/-- C5 witness: the race protocol at a concrete input. -/
theorem call_tool_race_witness :
    call_tool ⟨some 1⟩ ⟨"demo"⟩ [] .toolFirst (.result ⟨false, ["ok"]⟩) =
      .ok (.completed ⟨false, ["ok"]⟩,
        [.createTask .toolTask, .createTask .escTask, .cancel .escTask, .awaited .escTask]) :=
  (call_tool_race ⟨some 1⟩ ⟨"demo"⟩ [] (.result ⟨false, ["ok"]⟩)).1 _ rfl

/-- C6: an exception raised by the remote call is captured and reported as a
failed invocation outcome (never an uncaught fault out of `call_tool`), and a
subsequent call on the same session with a well-behaved remote still succeeds. -/
theorem call_tool_failure_reported (s : MCPSession) (tool : Tool)
    (params : List (String × PyValue)) (e : PyExc) (r : CallToolResult) :
    (call_tool s tool params .toolFirst (.exc e) =
      .ok (.failed e,
        [.createTask .toolTask, .createTask .escTask, .cancel .escTask, .awaited .escTask])) ∧
    (call_tool s tool params .toolFirst (.result r) =
      .ok (.completed r,
        [.createTask .toolTask, .createTask .escTask, .cancel .escTask, .awaited .escTask])) :=
  ⟨rfl, rfl⟩

/-! ## C9 and C10 -/

/-- C9: parameter coercion maps `"42"` (integer) to 42, `"3.14"` (number) to the
number 3.14, case-insensitive truthy words to boolean true and the falsy
words to boolean false, the JSON texts to the corresponding object and array,
and any blank string to the absent value regardless of the declared type. -/
theorem parse_parameter_value_coercion :
    parse_parameter_value "42" "integer" = .ok (.int 42) ∧
    parse_parameter_value "3.14" "number" = .ok (.float (157 / 50)) ∧
    (∀ s : String, pyLower s ∈ ["true", "t", "yes", "y", "1"] →
      parse_parameter_value s "boolean" = .ok (.bool true)) ∧
    (∀ s : String, pyLower s ∈ ["false", "f", "no", "n", "0"] →
      parse_parameter_value s "boolean" = .ok (.bool false)) ∧
    parse_parameter_value "\x7b\"a\":1\x7d" "object" = .ok (.dict [("a", .int 1)]) ∧
    parse_parameter_value "[1,2,3]" "array" = .ok (.list [.int 1, .int 2, .int 3]) ∧
    (∀ s ty : String, pyStrip s = "" → parse_parameter_value s ty = .ok .none) := by
  refine ⟨rfl, ?_, ?_, ?_, rfl, rfl, ?_⟩
  · have h : parse_parameter_value "3.14" "number" = .ok (.float (Rat.divInt 157 50)) := rfl
    rw [h, Rat.divInt_eq_div]
    norm_num
  · intro s h
    simp only [List.mem_cons, List.not_mem_nil, or_false] at h
    rcases h with h | h | h | h | h <;>
    · have hne := pyStrip_ne_empty_of_pyLower h (by decide)
      simp [parse_parameter_value, hne, h]
  · intro s h
    simp only [List.mem_cons, List.not_mem_nil, or_false] at h
    rcases h with h | h | h | h | h <;>
    · have hne := pyStrip_ne_empty_of_pyLower h (by decide)
      simp [parse_parameter_value, hne, h]
  · intro s ty h
    simp [parse_parameter_value, h]

/-- C9 witness: the universally quantified coercion clauses at concrete inputs. -/
theorem parse_parameter_value_coercion_witness :
    parse_parameter_value "TRUE" "boolean" = .ok (.bool true) ∧
    parse_parameter_value "No" "boolean" = .ok (.bool false) ∧
    parse_parameter_value "  " "integer" = .ok .none := by
  have h := parse_parameter_value_coercion
  exact ⟨h.2.2.1 "TRUE" (by decide), h.2.2.2.1 "No" (by decide),
    h.2.2.2.2.2.2 "  " "integer" (by decide)⟩

/-- C10: for type boolean, coercion of any non-blank string never raises:
every input whose lowercased form is not a truthy word — such as "banana" —
yields boolean false rather than an error. -/
theorem parse_parameter_value_boolean_total (s : String)
    (hne : pyStrip s ≠ "")
    (h : pyLower s ∉ ["true", "t", "yes", "y", "1"]) :
    parse_parameter_value s "boolean" = .ok (.bool false) := by
  simp only [List.mem_cons, List.not_mem_nil, or_false, not_or] at h
  simp [parse_parameter_value, hne, h.1, h.2.1, h.2.2.1, h.2.2.2.1, h.2.2.2.2]

/-- C10 witness: `"banana"` coerces to boolean false. -/
theorem parse_parameter_value_boolean_total_witness :
    parse_parameter_value "banana" "boolean" = .ok (.bool false) :=
  parse_parameter_value_boolean_total "banana" (by decide) (by decide)

/-! ## Health probe lemmas -/

theorem wakeAttemptOutcome_eq (r : AttemptResp) :
    wakeAttemptOutcome r = .ok (is200 r) := by
  cases r with
  | status c => rfl
  | exc e => cases e <;> rfl

theorem wakeTrace_succ_succ (wait : ℚ) (n : ℕ) :
    wakeTrace wait (Nat.succ (Nat.succ n)) =
      .get :: .sleep wait :: wakeTrace wait (Nat.succ n) := rfl

theorem countGets_cons_get (evs : List WakeEvent) :
    countGets (.get :: evs) = countGets evs + 1 := by
  simp [countGets, List.countP_cons]

theorem countGets_cons_sleep (wait : ℚ) (evs : List WakeEvent) :
    countGets (.sleep wait :: evs) = countGets evs := by
  simp [countGets, List.countP_cons]

theorem countGets_wakeTrace (wait : ℚ) : ∀ n, countGets (wakeTrace wait n) = n
  | 0 => rfl
  | 1 => rfl
  | Nat.succ (Nat.succ n) => by
    have ih := countGets_wakeTrace wait (Nat.succ n)
    rw [wakeTrace_succ_succ, countGets_cons_get, countGets_cons_sleep, ih]

theorem wakeLoop_isOk (resp : ℕ → AttemptResp) (wait : ℚ) :
    ∀ r i, ∃ v, wakeLoop resp wait i r = .ok v
  | 0, _ => ⟨(false, []), rfl⟩
  | Nat.succ r, i => by
    simp only [wakeLoop, wakeAttemptOutcome_eq]
    cases h : is200 (resp i)
    · by_cases hr : r = 0
      · subst hr; exact ⟨(false, [.get]), rfl⟩
      · obtain ⟨⟨b, evs⟩, hv⟩ := wakeLoop_isOk resp wait r (i + 1)
        rw [if_neg hr, hv]
        exact ⟨(b, .get :: .sleep wait :: evs), rfl⟩
    · exact ⟨(true, [.get]), rfl⟩

theorem wakeLoop_shape (resp : ℕ → AttemptResp) (wait : ℚ) :
    ∀ r i, ∃ b evs, wakeLoop resp wait i r = .ok (b, evs) ∧
      countGets evs ≤ r ∧ evs = wakeTrace wait (countGets evs) ∧
      (1 ≤ r → 1 ≤ countGets evs)
  | 0, _ => ⟨false, [], rfl, by simp [countGets], rfl, by omega⟩
  | Nat.succ r, i => by
    simp only [wakeLoop, wakeAttemptOutcome_eq]
    cases h : is200 (resp i)
    · by_cases hr : r = 0
      · subst hr
        exact ⟨false, [.get], rfl, by simp [countGets], rfl, fun _ => by simp [countGets]⟩
      · obtain ⟨b, evs, hv, hle, hshape, hone⟩ := wakeLoop_shape resp wait r (i + 1)
        rw [if_neg hr, hv]
        refine ⟨b, .get :: .sleep wait :: evs, rfl, ?_, ?_, fun _ => ?_⟩
        · rw [countGets_cons_get, countGets_cons_sleep]
          omega
        · have h1 : 1 ≤ countGets evs := hone (by omega)
          rw [countGets_cons_get, countGets_cons_sleep]
          obtain ⟨m, hm⟩ : ∃ m, countGets evs = m + 1 := ⟨countGets evs - 1, by omega⟩
          rw [hm]
          rw [wakeTrace_succ_succ, Nat.succ_eq_add_one, ← hm, ← hshape]
        · rw [countGets_cons_get, countGets_cons_sleep]
          omega
    · exact ⟨true, [.get], rfl, by simp [countGets], rfl, fun _ => by simp [countGets]⟩

theorem wakeLoop_first200 (resp : ℕ → AttemptResp) (wait : ℚ) :
    ∀ r i k, i ≤ k → k < i + r → is200 (resp k) = true →
      (∀ j, i ≤ j → j < k → is200 (resp j) = false) →
      wakeLoop resp wait i r = .ok (true, wakeTrace wait (k + 1 - i))
  | 0, i, k => fun h1 h2 => absurd h2 (by omega)
  | Nat.succ r, i, k => by
    intro hik hkr hk hprev
    simp only [wakeLoop, wakeAttemptOutcome_eq]
    rcases Nat.eq_or_lt_of_le hik with heq | hlt
    · rw [heq, hk]
      have h2 : k + 1 - k = 1 := by omega
      rw [h2]
      rfl
    · have hi : is200 (resp i) = false := hprev i le_rfl hlt
      rw [hi]
      have hr : r ≠ 0 := by omega
      rw [if_neg hr]
      have ih := wakeLoop_first200 resp wait r (i + 1) k (by omega) (by omega) hk
        (fun j h1 h2 => hprev j (by omega) h2)
      rw [ih]
      obtain ⟨m, hm⟩ : ∃ m, k + 1 - (i + 1) = m + 1 := ⟨k - i - 1, by omega⟩
      have hm2 : k + 1 - i = m + 2 := by omega
      rw [hm, hm2]
      rfl

theorem wakeLoop_allFail (resp : ℕ → AttemptResp) (wait : ℚ) :
    ∀ r i, (∀ k, i ≤ k → k < i + r → is200 (resp k) = false) →
      wakeLoop resp wait i r = .ok (false, wakeTrace wait r)
  | 0, _, _ => rfl
  | Nat.succ r, i, h => by
    simp only [wakeLoop, wakeAttemptOutcome_eq]
    rw [h i le_rfl (by omega)]
    by_cases hr : r = 0
    · subst hr; rfl
    · rw [if_neg hr]
      rw [wakeLoop_allFail resp wait r (i + 1) (fun k h1 h2 => h k (by omega) (by omega))]
      obtain ⟨m, hm⟩ : ∃ m, r = m + 1 := ⟨r - 1, by omega⟩
      subst hm
      rfl

theorem is200_eq_false_of_exc {r : AttemptResp} (h : isExcResp r = true) :
    is200 r = false := by
  cases r with
  | status c => simp [isExcResp] at h
  | exc e => rfl

/-! ## C7 and C8 -/

/-- C7: for `max_attempts ≥ 1`, the health probe performs at most `max_attempts`
GET requests, its trace is exactly one GET per attempt with a `wait_seconds`
sleep between consecutive attempts and none after the last, and on the first
attempt `k` that yields HTTP 200 it returns true with exactly `k` GETs issued. -/
theorem wake_up_server_attempt_bound (url : String) (resp : ℕ → AttemptResp)
    (max_attempts : ℕ) (wait : ℚ) (hmax : 1 ≤ max_attempts) :
    ∃ b evs, wake_up_server url resp max_attempts wait = .ok (b, evs) ∧
      countGets evs ≤ max_attempts ∧
      evs = wakeTrace wait (countGets evs) ∧
      (∀ k, 1 ≤ k → k ≤ max_attempts → is200 (resp k) = true →
        (∀ j, 1 ≤ j → j < k → is200 (resp j) = false) →
        b = true ∧ countGets evs = k) := by
  obtain ⟨b, evs, heq, hle, hshape, -⟩ := wakeLoop_shape resp wait max_attempts 1
  refine ⟨b, evs, heq, hle, hshape, ?_⟩
  intro k h1 h2 hk hprev
  have hfirst := wakeLoop_first200 resp wait max_attempts 1 k h1 (by omega) hk hprev
  rw [heq] at hfirst
  have hpair : b = true ∧ evs = wakeTrace wait (k + 1 - 1) := by
    have := Except.ok.inj hfirst
    exact ⟨congrArg Prod.fst this, congrArg Prod.snd this⟩
  have hk1 : k + 1 - 1 = k := by omega
  rw [hk1] at hpair
  exact ⟨hpair.1, by rw [hpair.2, countGets_wakeTrace]⟩

/-- C7 witness: probing a server that answers HTTP 200 at once issues one GET. -/
theorem wake_up_server_attempt_bound_witness :
    wake_up_server "u" (fun _ => .status 200) 3 5 = .ok (true, [WakeEvent.get]) := by
  obtain ⟨b, evs, heq, -, hshape, hk⟩ :=
    wake_up_server_attempt_bound "u" (fun _ => .status 200) 3 5 (by omega)
  obtain ⟨hb, hcount⟩ := hk 1 (by omega) (by omega) rfl
    (fun j h1 h2 => absurd h2 (by omega))
  rw [hcount] at hshape
  rw [heq, hb, hshape]
  rfl

/-- C8: the health probe never raises — every attempt outcome, including timeouts,
connection errors and any other exception, is converted into a failed attempt —
and when every attempt fails this way it returns false after `max_attempts` GETs. -/
theorem wake_up_server_never_raises (url : String) (resp : ℕ → AttemptResp)
    (max_attempts : ℕ) (wait : ℚ) :
    (∃ v, wake_up_server url resp max_attempts wait = .ok v) ∧
    ((∀ k, 1 ≤ k → k ≤ max_attempts → isExcResp (resp k) = true) →
      wake_up_server url resp max_attempts wait =
        .ok (false, wakeTrace wait max_attempts)) := by
  constructor
  · exact wakeLoop_isOk resp wait max_attempts 1
  · intro h
    exact wakeLoop_allFail resp wait max_attempts 1
      (fun k h1 h2 => is200_eq_false_of_exc (h k h1 (by omega)))

/-- C8 witness: a probe whose three attempts all time out returns false. -/
theorem wake_up_server_never_raises_witness :
    wake_up_server "u" (fun _ => .exc .timeoutError) 3 5 =
      .ok (false, wakeTrace 5 3) :=
  (wake_up_server_never_raises "u" (fun _ => .exc .timeoutError) 3 5).2
    (fun k h1 h2 => rfl)

/-! ## Connect-and-list lemmas -/

theorem connectLoop_session (behav : ℕ → AttemptBehavior) (wait : ℚ) :
    ∀ r i s, (connectLoop behav wait i r).1.1 = some s →
      ∃ j ts, s.clientAttempt = some j ∧ behav j = .ok ts ∧
        (connectLoop behav wait i r).1.2 = ts
  | 0, i, s => by simp [connectLoop]
  | Nat.succ r, i, s => by
    intro h
    rcases hb : behav i with e | e | e | tools
    · by_cases hr : r = 0
      · simp [connectLoop, hb, hr] at h
      · simp only [connectLoop, hb, if_neg hr] at h ⊢
        exact connectLoop_session behav wait r (i + 1) s h
    · by_cases hr : r = 0
      · simp [connectLoop, hb, hr] at h
      · simp only [connectLoop, hb, if_neg hr] at h ⊢
        exact connectLoop_session behav wait r (i + 1) s h
    · by_cases hr : r = 0
      · simp [connectLoop, hb, hr] at h
      · simp only [connectLoop, hb, if_neg hr] at h ⊢
        exact connectLoop_session behav wait r (i + 1) s h
    · simp only [connectLoop, hb, Option.some.injEq] at h ⊢
      exact ⟨i, tools, by rw [← h], hb, rfl⟩

theorem connectLoop_start (behav : ℕ → AttemptBehavior) (wait : ℚ) (r i : ℕ) :
    ConnEvent.attemptStart i ∈ (connectLoop behav wait i (Nat.succ r)).2 := by
  rcases hb : behav i with e | e | e | tools <;>
    by_cases hr : r = 0 <;>
      simp [connectLoop, hb, hr]

theorem connectLoop_listFail_release (behav : ℕ → AttemptBehavior) (wait : ℚ) :
    ∀ r i j e, behav j = .listFail e →
      ConnEvent.attemptStart j ∈ (connectLoop behav wait i r).2 →
      ConnEvent.release j ∈ (connectLoop behav wait i r).2 ∧
        (j + 1 < i + r →
          List.Sublist [ConnEvent.release j, ConnEvent.attemptStart (j + 1)]
            (connectLoop behav wait i r).2)
  | 0, i, j, e => by
    intro hj h
    simp [connectLoop] at h
  | Nat.succ r, i, j, e => by
    intro hj hmem
    rcases hb : behav i with e2 | e2 | e2 | tools
    · by_cases hr : r = 0
      · simp [connectLoop, hb, hr] at hmem
        rw [hmem] at hj
        exact absurd (hb.symm.trans hj) (by simp)
      · simp only [connectLoop, hb, if_neg hr] at hmem ⊢
        simp only [List.mem_cons] at hmem
        rcases hmem with heq | hmem
        · rw [ConnEvent.attemptStart.inj heq] at hj
          exact absurd (hb.symm.trans hj) (by simp)
        · rcases hmem with heq | hmem
          · exact absurd heq (by simp)
          · obtain ⟨hrel, hsub⟩ :=
              connectLoop_listFail_release behav wait r (i + 1) j e hj hmem
            refine ⟨by simp [hrel], fun hlt => ?_⟩
            exact ((hsub (by omega)).cons _).cons _
    · by_cases hr : r = 0
      · simp [connectLoop, hb, hr] at hmem
        rw [hmem] at hj
        exact absurd (hb.symm.trans hj) (by simp)
      · simp only [connectLoop, hb, if_neg hr] at hmem ⊢
        simp only [List.mem_cons] at hmem
        rcases hmem with heq | hmem
        · rw [ConnEvent.attemptStart.inj heq] at hj
          exact absurd (hb.symm.trans hj) (by simp)
        · rcases hmem with heq | hmem
          · exact absurd heq (by simp)
          · rcases hmem with heq | hmem
            · exact absurd heq (by simp)
            · rcases hmem with heq | hmem
              · exact absurd heq (by simp)
              · obtain ⟨hrel, hsub⟩ :=
                  connectLoop_listFail_release behav wait r (i + 1) j e hj hmem
                refine ⟨by simp [hrel], fun hlt => ?_⟩
                exact ((((hsub (by omega)).cons _).cons _).cons _).cons _
    · -- behav i = listFail e2
      by_cases hr : r = 0
      · simp only [connectLoop, hb, if_pos hr] at hmem ⊢
        simp only [List.mem_cons, List.not_mem_nil, or_false] at hmem
        rcases hmem with heq | heq | heq | heq | heq <;>
          first
          | · rw [ConnEvent.attemptStart.inj heq]
              refine ⟨by simp, fun hlt => ?_⟩
              exact absurd hlt (by omega)
          | exact absurd heq (by simp)
      · simp only [connectLoop, hb, if_neg hr] at hmem ⊢
        simp only [List.mem_cons] at hmem
        obtain ⟨r2, rfl⟩ : ∃ r2, r = Nat.succ r2 := ⟨r - 1, by omega⟩
        rcases hmem with heq | heq | heq | heq | heq | hmem
        · rw [ConnEvent.attemptStart.inj heq]
          have hstart := connectLoop_start behav wait r2 (i + 1)
          refine ⟨by simp, fun hlt => ?_⟩
          have hbase :
              List.Sublist [ConnEvent.release i, ConnEvent.attemptStart (i + 1)]
                (ConnEvent.release i :: ConnEvent.sleep wait ::
                  (connectLoop behav wait (i + 1) (Nat.succ r2)).2) :=
            ((List.singleton_sublist.mpr hstart).cons _).cons₂ _
          exact (((hbase.cons _).cons _).cons _).cons _
        · exact absurd heq (by simp)
        · exact absurd heq (by simp)
        · exact absurd heq (by simp)
        · exact absurd heq (by simp)
        · rcases hmem with heq | hmem
          · exact absurd heq (by simp)
          · obtain ⟨hrel, hsub⟩ :=
              connectLoop_listFail_release behav wait (Nat.succ r2) (i + 1) j e hj hmem
            refine ⟨by simp [hrel], fun hlt => ?_⟩
            exact ((((((hsub (by omega)).cons _).cons _).cons _).cons _).cons _).cons _
    · -- behav i = ok tools
      simp only [connectLoop, hb] at hmem ⊢
      simp only [List.mem_cons, List.not_mem_nil, or_false] at hmem
      rcases hmem with heq | heq | heq | heq
      · rw [ConnEvent.attemptStart.inj heq] at hj
        exact absurd (hb.symm.trans hj) (by simp)
      · exact absurd heq (by simp)
      · exact absurd heq (by simp)
      · exact absurd heq (by simp)

theorem connectLoop_exhaust (behav : ℕ → AttemptBehavior) (wait : ℚ) :
    ∀ r i, (∀ k, i ≤ k → k < i + r → ∀ ts, behav k ≠ .ok ts) →
      (connectLoop behav wait i r).1 = (Option.none, [])
  | 0, _, _ => rfl
  | Nat.succ r, i, h => by
    rcases hb : behav i with e | e | e | tools
    · by_cases hr : r = 0
      · simp [connectLoop, hb, hr]
      · simp only [connectLoop, hb, if_neg hr]
        exact connectLoop_exhaust behav wait r (i + 1)
          (fun k h1 h2 => h k (by omega) (by omega))
    · by_cases hr : r = 0
      · simp [connectLoop, hb, hr]
      · simp only [connectLoop, hb, if_neg hr]
        exact connectLoop_exhaust behav wait r (i + 1)
          (fun k h1 h2 => h k (by omega) (by omega))
    · by_cases hr : r = 0
      · simp [connectLoop, hb, hr]
      · simp only [connectLoop, hb, if_neg hr]
        exact connectLoop_exhaust behav wait r (i + 1)
          (fun k h1 h2 => h k (by omega) (by omega))
    · exact absurd hb (h i le_rfl (by omega) tools)

/-! ## C2 -/

/-- C2: `connect_and_list_tools` never returns a non-null session whose tool list
is empty because listing failed — a returned session always comes from an attempt
whose listing succeeded, and the returned tools are exactly that attempt's;
when an attempt's listing fails its transport is released and, unless it was the
last attempt, the whole attempt (handshake plus listing) is retried; and after
exhausting `max_attempts` the result is `(None, [])`. -/
theorem connect_and_list_tools_retry (behav : ℕ → AttemptBehavior)
    (max_attempts : ℕ) (wait : ℚ) :
    (∀ s, (connect_and_list_tools behav max_attempts wait).1.1 = some s →
      ∃ j ts, s.clientAttempt = some j ∧ behav j = .ok ts ∧
        (connect_and_list_tools behav max_attempts wait).1.2 = ts) ∧
    (∀ j e, behav j = .listFail e →
      ConnEvent.attemptStart j ∈ (connect_and_list_tools behav max_attempts wait).2 →
      ConnEvent.release j ∈ (connect_and_list_tools behav max_attempts wait).2 ∧
        (j < max_attempts →
          List.Sublist [ConnEvent.release j, ConnEvent.attemptStart (j + 1)]
            (connect_and_list_tools behav max_attempts wait).2)) ∧
    ((∀ k, 1 ≤ k → k ≤ max_attempts → ∀ ts, behav k ≠ .ok ts) →
      (connect_and_list_tools behav max_attempts wait).1 = (Option.none, [])) := by
  refine ⟨fun s => connectLoop_session behav wait max_attempts 1 s, ?_, ?_⟩
  · intro j e hj hmem
    obtain ⟨hrel, hsub⟩ := connectLoop_listFail_release behav wait max_attempts 1 j e hj hmem
    exact ⟨hrel, fun hlt => hsub (by omega)⟩
  · intro h
    exact connectLoop_exhaust behav wait max_attempts 1
      (fun k h1 h2 => h k h1 (by omega))

/-- C2 witness: with listing failing on attempt 1 and succeeding on attempt 2,
attempt 1's transport is released and the whole attempt is rerun. -/
theorem connect_and_list_tools_retry_witness :
    ConnEvent.release 1 ∈
      (connect_and_list_tools
        (fun i => if i = 1 then .listFail .timeoutError else .ok [⟨"t1"⟩]) 3 5).2 ∧
    List.Sublist [ConnEvent.release 1, ConnEvent.attemptStart 2]
      (connect_and_list_tools
        (fun i => if i = 1 then .listFail .timeoutError else .ok [⟨"t1"⟩]) 3 5).2 := by
  have h := (connect_and_list_tools_retry
    (fun i => if i = 1 then .listFail .timeoutError else .ok [⟨"t1"⟩]) 3 5).2.1
    1 .timeoutError rfl (by decide)
  exact ⟨h.1, h.2 (by omega)⟩

/-! ## Reconnect lemmas -/

theorem isConnEvent_wakeToRec (w : WakeEvent) : isConnEvent (wakeToRec w) = false := by
  cases w <;> rfl

theorem cons_sublist_pair {α : Type} (a x : α) (l : List α) (hx : x ∈ a :: l)
    (hne : x ≠ a) : List.Sublist [a, x] (a :: l) := by
  rcases List.mem_cons.mp hx with heq | h
  · exact absurd heq hne
  · exact (List.singleton_sublist.mpr h).cons₂ a

/-! ## C1 -/

/-- C1 counterexample: with a health URL configured and a probe that fails on
every attempt, `reconnect(None)` does not return an empty tool list — the tool
component of the result is `None`, not `[]`. -/
theorem reconnect_probe_fail_counterexample :
    (reconnect (some "h") (fun _ => AttemptResp.exc .connectError)
        (fun _ => AttemptBehavior.ctorFail .connectError) Option.none).map
      (fun r => r.1.2) ≠ Except.ok (some ([] : List Tool)) := by
  intro hcontra
  have hbase : (reconnect (some "h") (fun _ => AttemptResp.exc .connectError)
      (fun _ => AttemptBehavior.ctorFail .connectError) Option.none).map
        (fun r => r.1.2) = Except.ok (Option.none : Option (List Tool)) := rfl
  rw [hbase] at hcontra
  exact Option.noConfusion (Except.ok.inj hcontra)

/-- C1 (amended): with a health URL configured, if the probe fails on all of its
attempts then `reconnect(None)` returns `(None, None)` — a null session and a
null (absent) tool list — without ever invoking `connect_and_list_tools`:
its trace holds only probe steps, no SessionFactory step. -/
theorem reconnect_probe_fail (url : String) (wakeResp : ℕ → AttemptResp)
    (behav : ℕ → AttemptBehavior)
    (h : ∀ k, 1 ≤ k → k ≤ 6 → is200 (wakeResp k) = false) :
    reconnect (some url) wakeResp behav Option.none =
      .ok ((Option.none, Option.none), (wakeTrace 5 6).map wakeToRec) ∧
    (∀ e ∈ (wakeTrace 5 6).map wakeToRec, isConnEvent e = false) := by
  have hv : wakeLoop wakeResp 5 1 6 = .ok (false, wakeTrace 5 6) :=
    wakeLoop_allFail wakeResp 5 6 1 (fun k h1 h2 => h k h1 (by omega))
  constructor
  · simp [reconnect, wake_up_server, hv]
  · intro e he
    obtain ⟨w, -, rfl⟩ := List.mem_map.mp he
    exact isConnEvent_wakeToRec w

/-- C1 witness: the amended behaviour at a concrete failing probe. -/
theorem reconnect_probe_fail_witness :
    reconnect (some "h") (fun _ => AttemptResp.status 503)
      (fun _ => AttemptBehavior.ctorFail .connectError) Option.none =
      .ok ((Option.none, Option.none), (wakeTrace 5 6).map wakeToRec) :=
  (reconnect_probe_fail "h" (fun _ => AttemptResp.status 503)
    (fun _ => AttemptBehavior.ctorFail .connectError) (fun k h1 h2 => rfl)).1

/-! ## C3 -/

/-- C3: `reconnect(prev)` with a non-null previous session always performs the
previous session's cleanup — it is the very first step of the trace, so it is
invoked before `reconnect` returns whether or not the new connection succeeds,
and it precedes every new connection attempt start. -/
theorem reconnect_cleanup_first (health_url : Option String)
    (wakeResp : ℕ → AttemptResp) (behav : ℕ → AttemptBehavior) (prev : MCPSession) :
    ∃ res evs, reconnect health_url wakeResp behav (some prev) = .ok (res, evs) ∧
      evs.head? = some RecEvent.cleanupPrev ∧
      (∀ i, RecEvent.conn (ConnEvent.attemptStart i) ∈ evs →
        List.Sublist [RecEvent.cleanupPrev, RecEvent.conn (ConnEvent.attemptStart i)] evs) := by
  cases health_url with
  | none =>
    rcases hc : connect_and_list_tools behav 3 5 with ⟨⟨os, tools⟩, cevs⟩
    cases os with
    | none =>
      refine ⟨(Option.none, Option.none), RecEvent.cleanupPrev :: cevs.map RecEvent.conn,
        by simp [reconnect, hc], rfl, fun i hmem => ?_⟩
      exact cons_sublist_pair _ _ _ hmem (by simp)
    | some s =>
      refine ⟨(some s, some tools), RecEvent.cleanupPrev :: cevs.map RecEvent.conn,
        by simp [reconnect, hc], rfl, fun i hmem => ?_⟩
      exact cons_sublist_pair _ _ _ hmem (by simp)
  | some url =>
    obtain ⟨⟨awake, wevs⟩, hv⟩ := wakeLoop_isOk wakeResp 5 6 1
    cases awake with
    | false =>
      refine ⟨(Option.none, Option.none), RecEvent.cleanupPrev :: wevs.map wakeToRec,
        by simp [reconnect, wake_up_server, hv], rfl, fun i hmem => ?_⟩
      exact cons_sublist_pair _ _ _ hmem (by simp)
    | true =>
      rcases hc : connect_and_list_tools behav 3 5 with ⟨⟨os, tools⟩, cevs⟩
      cases os with
      | none =>
        refine ⟨(Option.none, Option.none),
          RecEvent.cleanupPrev ::
            (wevs.map wakeToRec ++ RecEvent.settle 5 :: cevs.map RecEvent.conn),
          by simp [reconnect, wake_up_server, hv, hc], rfl, fun i hmem => ?_⟩
        exact cons_sublist_pair _ _ _ hmem (by simp)
      | some s =>
        refine ⟨(some s, some tools),
          RecEvent.cleanupPrev ::
            (wevs.map wakeToRec ++ RecEvent.settle 5 :: cevs.map RecEvent.conn),
          by simp [reconnect, wake_up_server, hv, hc], rfl, fun i hmem => ?_⟩
        exact cons_sublist_pair _ _ _ hmem (by simp)

/-- C3 witness: at a concrete input with a previous session, the reconnect trace
starts with the previous session's cleanup. -/
theorem reconnect_cleanup_first_witness :
    (reconnect Option.none (fun _ => AttemptResp.status 200)
        (fun _ => AttemptBehavior.ok [⟨"t"⟩]) (some ⟨some 0⟩)).map
      (fun r => r.2.head?) = .ok (some RecEvent.cleanupPrev) := by
  obtain ⟨res, evs, heq, hhead, -⟩ := reconnect_cleanup_first Option.none
    (fun _ => AttemptResp.status 200) (fun _ => AttemptBehavior.ok [⟨"t"⟩]) ⟨some 0⟩
  rw [heq]
  exact congrArg Except.ok hhead

end Forbin
